import Mathlib

/-!
Verification of `src/round_corners.py` (PhotonX): a utility that loads an
image, applies a rounded-corner alpha mask, and writes a PNG copy.

The in-memory pixel transform of `add_rounded_corners` is embedded directly
from the source. The image library's primitives (RGBA conversion,
`ImageDraw.rounded_rectangle` rasterization, `ImageChops.multiply`, file
decoding/encoding) are library code not present in this repository; those
leaves are modelled from the specification's description of them, as marked
on each definition.
-/

/-- A decoded source image: a width × height grid of 8-bit red/green/blue
channels, with an optional alpha channel (`none` models an RGB-only input
with no alpha channel). Channels are total functions on pixel coordinates;
only values at `x < width`, `y < height` are meaningful. -/
structure SrcImage where
  width : Nat
  height : Nat
  red : Nat → Nat → Nat
  green : Nat → Nat → Nat
  blue : Nat → Nat → Nat
  alphaCh : Option (Nat → Nat → Nat)

/-- An in-memory RGBA image as produced by `Image.open(...).convert("RGBA")`:
four 8-bit channels plus the mode string PIL attaches to the object. -/
structure Img where
  mode : String
  width : Nat
  height : Nat
  red : Nat → Nat → Nat
  green : Nat → Nat → Nat
  blue : Nat → Nat → Nat
  alpha : Nat → Nat → Nat

/-- Well-formedness of a source image's alpha channel: if it has one, all
its values are 8-bit (≤ 255). -/
def SrcImage.AlphaWf (s : SrcImage) : Prop :=
  ∀ a, s.alphaCh = some a → ∀ x y, a x y ≤ 255

/-- Modelled from the spec: `Image.open(input_path).convert("RGBA")` decodes
into an RGBA grid; "If the source has no alpha channel, synthesize one that
is fully opaque (value 255 everywhere)". The conversion is PIL library code
absent from the repository. -/
def convertRGBA (s : SrcImage) : Img :=
  { mode := "RGBA"
    width := s.width
    height := s.height
    red := s.red
    green := s.green
    blue := s.blue
    alpha :=
      match s.alphaCh with
      | some a => a
      | none => fun _ _ => 255 }

/-- Modelled from the spec: a pixel of the w × h grid is strictly outside
the rounded region when it lies in one of the four corner squares of side
`radius` and beyond that corner's quarter-circle arc. The corner arcs have
radius `r` and centers `(r, r)`, `(w-1-r, r)`, `(r, h-1-r)`, `(w-1-r, h-1-r)`
(the rounded rectangle is congruent to the image bounds). The exact
rasterization is PIL library code absent from the repository; the spec
declares boundary-pixel behavior implementation-defined. -/
def OutsideRounded (w h r x y : Nat) : Prop :=
  ((x : Int) < r ∧ (y : Int) < r ∧
    ((x : Int) - r) ^ 2 + ((y : Int) - r) ^ 2 > (r : Int) ^ 2) ∨
  ((w : Int) - 1 - r < x ∧ (y : Int) < r ∧
    ((x : Int) - ((w : Int) - 1 - r)) ^ 2 + ((y : Int) - r) ^ 2 > (r : Int) ^ 2) ∨
  ((x : Int) < r ∧ (h : Int) - 1 - r < y ∧
    ((x : Int) - r) ^ 2 + ((y : Int) - ((h : Int) - 1 - r)) ^ 2 > (r : Int) ^ 2) ∨
  ((w : Int) - 1 - r < x ∧ (h : Int) - 1 - r < y ∧
    ((x : Int) - ((w : Int) - 1 - r)) ^ 2 + ((y : Int) - ((h : Int) - 1 - r)) ^ 2 > (r : Int) ^ 2)

instance (w h r x y : Nat) : Decidable (OutsideRounded w h r x y) := by
  unfold OutsideRounded
  infer_instance

/-- Modelled from the spec: the mask built by
`Image.new('L', (width, height), 0)` followed by
`draw.rounded_rectangle([(0, 0), (width, height)], radius, fill=255)` —
"pixels inside this boundary are 255, pixels outside are 0". The drawing
primitive is PIL library code absent from the repository. -/
def roundedMask (w h r x y : Nat) : Nat :=
  if OutsideRounded w h r x y then 0 else 255

/-- Modelled from the spec: `ImageChops.multiply` on two 8-bit channels —
"the per-pixel product of the original alpha channel and the mask,
normalized so that 255×255 maps back to 255 (standard 8-bit
multiply-and-rescale blending)", i.e. the standard `(a*b + 128 + carry)/256`
rescale of `a*b/255`. The operation is PIL library code absent from the
repository. -/
def muldiv255 (a b : Nat) : Nat :=
  ((a * b + 128) / 256 + (a * b + 128)) / 256

/-- The `if img.mode == 'RGBA'` branch of the alpha computation
(src/round_corners.py lines 17–21): split off the alpha channel and combine
it with the rounded-corner mask via `ImageChops.multiply`. -/
def multiplyBranchAlpha (img : Img) (radius : Nat) : Nat → Nat → Nat :=
  fun x y => muldiv255 (img.alpha x y) (roundedMask img.width img.height radius x y)

/-- The `else` branch of the alpha computation (src/round_corners.py
lines 22–23): the new alpha is the bare mask. -/
def elseBranchAlpha (img : Img) (radius : Nat) : Nat → Nat → Nat :=
  fun x y => roundedMask img.width img.height radius x y

/-- `img.putalpha(new_alpha)` (src/round_corners.py line 26): replace the
alpha channel, leaving all color channels and dimensions unchanged. -/
def Img.putalpha (img : Img) (newAlpha : Nat → Nat → Nat) : Img :=
  { img with alpha := newAlpha }

/-- The in-memory transform of `add_rounded_corners`
(src/round_corners.py lines 6–26): convert to RGBA, build the rounded-corner
mask, branch on the mode test, and replace the alpha channel. -/
def applyRoundedCorners (s : SrcImage) (radius : Nat) : Img :=
  let img := convertRGBA s
  let newAlpha :=
    if img.mode = "RGBA" then multiplyBranchAlpha img radius
    else elseBranchAlpha img radius
  img.putalpha newAlpha

/-- Errors of the underlying image library, propagated uncaught. -/
inductive PILError where
  | decodeError : PILError
  | encodeError : PILError

/-- Modelled from the spec: the file-system facing behavior of
`Image.open` and `Image.save`, which are library code absent from the
repository. `decodeResult p` is the image decoded at path `p` (`none`:
missing, unreadable or corrupt); `writable p` says whether a file can be
written at `p`. -/
structure PilEnv where
  decodeResult : String → Option SrcImage
  writable : String → Bool

/-- `add_rounded_corners(input_path, output_path, radius)`
(src/round_corners.py lines 4–29) including its file I/O: decode the input
(propagating a decode error before any file is written), transform, and
save the result as one PNG at `output_path` (propagating an encode/write
error if the destination is unwritable). Returns the list of files written
and the propagated error, if any. -/
def add_rounded_corners (env : PilEnv) (input_path output_path : String)
    (radius : Nat) : List (String × Img) × Option PILError :=
  match env.decodeResult input_path with
  | none => ([], some PILError.decodeError)
  | some s =>
      if env.writable output_path then
        ([(output_path, applyRoundedCorners s radius)], none)
      else
        ([], some PILError.encodeError)

/-- Modelled from the spec: saving the RGBA result as PNG and decoding it
again is lossless, yielding a source image with the same four channels and
an alpha channel present. Used to state re-application of the transform to
its own output. -/
def Img.toSrc (img : Img) : SrcImage :=
  { width := img.width
    height := img.height
    red := img.red
    green := img.green
    blue := img.blue
    alphaCh := some img.alpha }

/-- Concrete test image used by witnesses: 6 × 5, constant channels,
alpha channel present with value 200 everywhere. -/
def testImage : SrcImage :=
  { width := 6
    height := 5
    red := fun _ _ => 12
    green := fun _ _ => 34
    blue := fun _ _ => 56
    alphaCh := some fun _ _ => 200 }

/-- Concrete test image used by witnesses: 6 × 5, no alpha channel. -/
def testNoAlpha : SrcImage :=
  { width := 6
    height := 5
    red := fun _ _ => 12
    green := fun _ _ => 34
    blue := fun _ _ => 56
    alphaCh := none }

/-- Concrete environment used by witnesses: every path decodes to
`testImage` and every path is writable. -/
def envOk : PilEnv :=
  { decodeResult := fun _ => some testImage
    writable := fun _ => true }

-- Basic reduction lemmas

theorem convertRGBA_mode (s : SrcImage) : (convertRGBA s).mode = "RGBA" := rfl

theorem applyRoundedCorners_alpha (s : SrcImage) (r x y : Nat) :
    (applyRoundedCorners s r).alpha x y =
      muldiv255 ((convertRGBA s).alpha x y) (roundedMask s.width s.height r x y) := rfl

theorem convertRGBA_alpha_le (s : SrcImage) (hwf : s.AlphaWf) (x y : Nat) :
    (convertRGBA s).alpha x y ≤ 255 := by
  show (match s.alphaCh with
    | some a => a
    | none => fun _ _ => 255) x y ≤ 255
  rcases h : s.alphaCh with - | a
  · exact Nat.le_refl 255
  · exact hwf a h x y

theorem muldiv255_zero_right (a : Nat) : muldiv255 a 0 = 0 := by
  unfold muldiv255
  simp

theorem muldiv255_255_right (a : Nat) (ha : a ≤ 255) : muldiv255 a 255 = a := by
  unfold muldiv255
  omega

theorem roundedMask_eq_zero_or_255 (w h r x y : Nat) :
    roundedMask w h r x y = 0 ∨ roundedMask w h r x y = 255 := by
  unfold roundedMask
  split
  · exact Or.inl rfl
  · exact Or.inr rfl

theorem roundedMask_corner00 (w h r : Nat) (hr : 0 < r) :
    roundedMask w h r 0 0 = 0 := by
  have hR : (0 : Int) < (r : Int) := by exact_mod_cast hr
  unfold roundedMask
  rw [if_pos]
  left
  refine ⟨by exact_mod_cast hr, by exact_mod_cast hr, ?_⟩
  push_cast
  nlinarith [mul_pos hR hR]

theorem roundedMask_cornerW0 (w h r : Nat) (hr : 0 < r) (hw : 0 < w) :
    roundedMask w h r (w - 1) 0 = 0 := by
  have hR : (0 : Int) < (r : Int) := by exact_mod_cast hr
  have hx : ((w - 1 : Nat) : Int) = (w : Int) - 1 := by omega
  unfold roundedMask
  rw [if_pos]
  right; left
  refine ⟨by omega, by exact_mod_cast hr, ?_⟩
  rw [hx]
  push_cast
  nlinarith [mul_pos hR hR]

theorem roundedMask_corner0H (w h r : Nat) (hr : 0 < r) (hh : 0 < h) :
    roundedMask w h r 0 (h - 1) = 0 := by
  have hR : (0 : Int) < (r : Int) := by exact_mod_cast hr
  have hy : ((h - 1 : Nat) : Int) = (h : Int) - 1 := by omega
  unfold roundedMask
  rw [if_pos]
  right; right; left
  refine ⟨by exact_mod_cast hr, by omega, ?_⟩
  rw [hy]
  push_cast
  nlinarith [mul_pos hR hR]

theorem roundedMask_cornerWH (w h r : Nat) (hr : 0 < r) (hw : 0 < w) (hh : 0 < h) :
    roundedMask w h r (w - 1) (h - 1) = 0 := by
  have hR : (0 : Int) < (r : Int) := by exact_mod_cast hr
  have hx : ((w - 1 : Nat) : Int) = (w : Int) - 1 := by omega
  have hy : ((h - 1 : Nat) : Int) = (h : Int) - 1 := by omega
  unfold roundedMask
  rw [if_pos]
  right; right; right
  refine ⟨by omega, by omega, ?_⟩
  rw [hx, hy]
  nlinarith [mul_pos hR hR]

theorem roundedMask_radius_zero (w h x y : Nat) (hx : x < w) (hy : y < h) :
    roundedMask w h 0 x y = 255 := by
  have hy2 : (y : Int) < h := by exact_mod_cast hy
  unfold roundedMask
  rw [if_neg]
  intro hc
  rcases hc with ⟨h1, h2, h3⟩ | ⟨h1, h2, h3⟩ | ⟨h1, h2, h3⟩ | ⟨h1, h2, h3⟩ <;> omega

theorem muldiv255_255_left (m : Nat) (hm : m = 0 ∨ m = 255) :
    muldiv255 255 m = m := by
  rcases hm with hm | hm <;> rw [hm]
  · exact muldiv255_zero_right 255
  · exact muldiv255_255_right 255 (Nat.le_refl 255)

theorem convertRGBA_alpha_none (s : SrcImage) (h : s.alphaCh = none) (x y : Nat) :
    (convertRGBA s).alpha x y = 255 := by
  show (match s.alphaCh with
    | some a => a
    | none => fun _ _ => 255) x y = 255
  rw [h]

theorem testImage_wf : testImage.AlphaWf := by
  intro a ha x y
  have h : (some fun _ _ => (200 : Nat)) = some a := ha
  cases h
  exact Nat.le_of_lt (by norm_num)

-- Sanity checks of the mask model against the spec's §8 scenario
-- (200×100 image, radius 50: corner transparent, center opaque).

theorem roundedMask_scenario_corner : roundedMask 200 100 50 0 0 = 0 := by decide

theorem roundedMask_scenario_center : roundedMask 200 100 50 100 50 = 255 := by decide

/-- C1: for every input image (with 8-bit alpha values) and every pixel, the
output alpha produced by the transform equals the 8-bit multiply-and-rescale
product of the input alpha and the mask value at that pixel, i.e.
`input_alpha * mask / 255` with flooring division, so 255 × 255 maps back
to 255. -/
theorem c1_output_alpha_is_rescaled_product (s : SrcImage) (hwf : s.AlphaWf)
    (r x y : Nat) :
    (applyRoundedCorners s r).alpha x y =
      (convertRGBA s).alpha x y * roundedMask s.width s.height r x y / 255 := by
  rw [applyRoundedCorners_alpha]
  rcases roundedMask_eq_zero_or_255 s.width s.height r x y with hm | hm <;> rw [hm]
  · rw [muldiv255_zero_right]
    simp
  · rw [muldiv255_255_right _ (convertRGBA_alpha_le s hwf x y)]
    omega

theorem c1_witness :
    (applyRoundedCorners testImage 2).alpha 3 2 =
      (convertRGBA testImage).alpha 3 2 *
        roundedMask testImage.width testImage.height 2 3 2 / 255 :=
  c1_output_alpha_is_rescaled_product testImage testImage_wf 2 3 2

theorem roundedMask_last_col_top (w h r : Nat) (hr : 0 < r) :
    roundedMask w h r (w - 1) 0 = 0 := by
  rcases Nat.eq_zero_or_pos w with hw | hw
  · rw [hw]
    exact roundedMask_corner00 0 h r hr
  · exact roundedMask_cornerW0 w h r hr hw

theorem roundedMask_first_col_bottom (w h r : Nat) (hr : 0 < r) :
    roundedMask w h r 0 (h - 1) = 0 := by
  rcases Nat.eq_zero_or_pos h with hh | hh
  · rw [hh]
    exact roundedMask_corner00 w 0 r hr
  · exact roundedMask_corner0H w h r hr hh

theorem roundedMask_last_col_bottom (w h r : Nat) (hr : 0 < r) :
    roundedMask w h r (w - 1) (h - 1) = 0 := by
  rcases Nat.eq_zero_or_pos w with hw | hw
  · rw [hw]
    exact roundedMask_first_col_bottom 0 h r hr
  · rcases Nat.eq_zero_or_pos h with hh | hh
    · rw [hh]
      exact roundedMask_cornerW0 w 0 r hr hw
    · exact roundedMask_cornerWH w h r hr hw hh

/-- C2: for every input image and every radius strictly greater than 0, the
output alpha at each of the four corner pixels (0,0), (0,H-1), (W-1,0),
(W-1,H-1) is 0, regardless of the input alpha there. -/
theorem c2_corner_pixels_transparent (s : SrcImage) (r : Nat) (hr : 0 < r) :
    (applyRoundedCorners s r).alpha 0 0 = 0 ∧
    (applyRoundedCorners s r).alpha 0 (s.height - 1) = 0 ∧
    (applyRoundedCorners s r).alpha (s.width - 1) 0 = 0 ∧
    (applyRoundedCorners s r).alpha (s.width - 1) (s.height - 1) = 0 := by
  refine ⟨?_, ?_, ?_, ?_⟩ <;> rw [applyRoundedCorners_alpha]
  · rw [roundedMask_corner00 _ _ _ hr, muldiv255_zero_right]
  · rw [roundedMask_first_col_bottom _ _ _ hr, muldiv255_zero_right]
  · rw [roundedMask_last_col_top _ _ _ hr, muldiv255_zero_right]
  · rw [roundedMask_last_col_bottom _ _ _ hr, muldiv255_zero_right]

theorem c2_witness :
    0 < 2 ∧
    ((applyRoundedCorners testImage 2).alpha 0 0 = 0 ∧
     (applyRoundedCorners testImage 2).alpha 0 (testImage.height - 1) = 0 ∧
     (applyRoundedCorners testImage 2).alpha (testImage.width - 1) 0 = 0 ∧
     (applyRoundedCorners testImage 2).alpha (testImage.width - 1)
        (testImage.height - 1) = 0) :=
  ⟨by decide, c2_corner_pixels_transparent testImage 2 (by decide)⟩

/-- C3: for every input image (with 8-bit alpha values), every radius and
every pixel, the output alpha is at most the input alpha, and a pixel whose
input alpha is 0 has output alpha 0. -/
theorem c3_alpha_only_shrinks (s : SrcImage) (hwf : s.AlphaWf) (r x y : Nat) :
    (applyRoundedCorners s r).alpha x y ≤ (convertRGBA s).alpha x y ∧
    ((convertRGBA s).alpha x y = 0 → (applyRoundedCorners s r).alpha x y = 0) := by
  rw [applyRoundedCorners_alpha]
  rcases roundedMask_eq_zero_or_255 s.width s.height r x y with hm | hm <;> rw [hm]
  · rw [muldiv255_zero_right]
    exact ⟨Nat.zero_le _, fun _ => rfl⟩
  · rw [muldiv255_255_right _ (convertRGBA_alpha_le s hwf x y)]
    exact ⟨Nat.le_refl _, fun h => h⟩

theorem c3_witness :
    (applyRoundedCorners testImage 3).alpha 1 1 ≤ (convertRGBA testImage).alpha 1 1 ∧
    ((convertRGBA testImage).alpha 1 1 = 0 →
      (applyRoundedCorners testImage 3).alpha 1 1 = 0) :=
  c3_alpha_only_shrinks testImage testImage_wf 3 1 1

/-- C4: for every input image and radius, the output image's width and
height equal the input image's width and height. -/
theorem c4_dimensions_preserved (s : SrcImage) (r : Nat) :
    (applyRoundedCorners s r).width = s.width ∧
    (applyRoundedCorners s r).height = s.height :=
  ⟨rfl, rfl⟩

/-- C5: with radius 0 the mask is 255 at every pixel of the image and the
output alpha channel is identical, pixel for pixel, to the input alpha
channel. -/
theorem c5_radius_zero_identity (s : SrcImage) (hwf : s.AlphaWf) (x y : Nat)
    (hx : x < s.width) (hy : y < s.height) :
    roundedMask s.width s.height 0 x y = 255 ∧
    (applyRoundedCorners s 0).alpha x y = (convertRGBA s).alpha x y := by
  have hm := roundedMask_radius_zero s.width s.height x y hx hy
  refine ⟨hm, ?_⟩
  rw [applyRoundedCorners_alpha, hm,
    muldiv255_255_right _ (convertRGBA_alpha_le s hwf x y)]

theorem c5_witness :
    (4 < testImage.width ∧ 3 < testImage.height) ∧
    (roundedMask testImage.width testImage.height 0 4 3 = 255 ∧
     (applyRoundedCorners testImage 0).alpha 4 3 = (convertRGBA testImage).alpha 4 3) :=
  ⟨⟨by decide, by decide⟩,
    c5_radius_zero_identity testImage testImage_wf 4 3 (by decide) (by decide)⟩

/-- C6: applying the transform a second time to its own (saved and reloaded)
output with the same radius yields the same image as applying it once:
dimensions, color channels and alpha agree at every pixel. -/
theorem c6_second_application_is_identity (s : SrcImage) (hwf : s.AlphaWf)
    (r x y : Nat) :
    (applyRoundedCorners (applyRoundedCorners s r).toSrc r).width
        = (applyRoundedCorners s r).width ∧
    (applyRoundedCorners (applyRoundedCorners s r).toSrc r).height
        = (applyRoundedCorners s r).height ∧
    (applyRoundedCorners (applyRoundedCorners s r).toSrc r).red x y
        = (applyRoundedCorners s r).red x y ∧
    (applyRoundedCorners (applyRoundedCorners s r).toSrc r).green x y
        = (applyRoundedCorners s r).green x y ∧
    (applyRoundedCorners (applyRoundedCorners s r).toSrc r).blue x y
        = (applyRoundedCorners s r).blue x y ∧
    (applyRoundedCorners (applyRoundedCorners s r).toSrc r).alpha x y
        = (applyRoundedCorners s r).alpha x y := by
  refine ⟨rfl, rfl, rfl, rfl, rfl, ?_⟩
  have ha := convertRGBA_alpha_le s hwf x y
  have key : (applyRoundedCorners (applyRoundedCorners s r).toSrc r).alpha x y
      = muldiv255 ((applyRoundedCorners s r).alpha x y)
          (roundedMask s.width s.height r x y) := rfl
  rw [key, applyRoundedCorners_alpha]
  rcases roundedMask_eq_zero_or_255 s.width s.height r x y with hm | hm <;> rw [hm]
  · rw [muldiv255_zero_right, muldiv255_zero_right]
  · rw [muldiv255_255_right _ ha]
    exact muldiv255_255_right _ ha

theorem c6_witness :
    (applyRoundedCorners (applyRoundedCorners testImage 2).toSrc 2).width
        = (applyRoundedCorners testImage 2).width ∧
    (applyRoundedCorners (applyRoundedCorners testImage 2).toSrc 2).height
        = (applyRoundedCorners testImage 2).height ∧
    (applyRoundedCorners (applyRoundedCorners testImage 2).toSrc 2).red 0 0
        = (applyRoundedCorners testImage 2).red 0 0 ∧
    (applyRoundedCorners (applyRoundedCorners testImage 2).toSrc 2).green 0 0
        = (applyRoundedCorners testImage 2).green 0 0 ∧
    (applyRoundedCorners (applyRoundedCorners testImage 2).toSrc 2).blue 0 0
        = (applyRoundedCorners testImage 2).blue 0 0 ∧
    (applyRoundedCorners (applyRoundedCorners testImage 2).toSrc 2).alpha 0 0
        = (applyRoundedCorners testImage 2).alpha 0 0 :=
  c6_second_application_is_identity testImage testImage_wf 2 0 0

/-- C7: for every input image, radius and pixel, the red, green and blue
channels of the output equal those of the RGBA-converted input; only the
alpha channel is replaced. -/
theorem c7_color_channels_unchanged (s : SrcImage) (r x y : Nat) :
    (applyRoundedCorners s r).red x y = (convertRGBA s).red x y ∧
    (applyRoundedCorners s r).green x y = (convertRGBA s).green x y ∧
    (applyRoundedCorners s r).blue x y = (convertRGBA s).blue x y :=
  ⟨rfl, rfl, rfl⟩

/-- C8: for every input image lacking an alpha channel, the output alpha
channel equals the mask itself, pixel for pixel: the synthesized alpha is
255 everywhere, and multiplying 255 by the mask and rescaling returns the
mask. -/
theorem c8_rgb_input_alpha_is_mask (s : SrcImage) (h : s.alphaCh = none)
    (r x y : Nat) :
    (applyRoundedCorners s r).alpha x y = roundedMask s.width s.height r x y := by
  rw [applyRoundedCorners_alpha, convertRGBA_alpha_none s h]
  exact muldiv255_255_left _ (roundedMask_eq_zero_or_255 s.width s.height r x y)

theorem c8_witness :
    testNoAlpha.alphaCh = none ∧
    (applyRoundedCorners testNoAlpha 2).alpha 0 0 =
      roundedMask testNoAlpha.width testNoAlpha.height 2 0 0 :=
  ⟨rfl, c8_rgb_input_alpha_is_mask testNoAlpha rfl 2 0 0⟩

/-- C9: an error propagates if and only if decoding the input fails or the
output path is unwritable; on the decode-failure branch no output file is
written; on success no error is raised and exactly one output file is
written. -/
theorem c9_error_propagation (env : PilEnv) (inp outp : String) (r : Nat) :
    ((add_rounded_corners env inp outp r).2 ≠ none ↔
      env.decodeResult inp = none ∨ env.writable outp = false) ∧
    (env.decodeResult inp = none → (add_rounded_corners env inp outp r).1 = []) ∧
    ((add_rounded_corners env inp outp r).2 = none →
      (add_rounded_corners env inp outp r).1.length = 1) := by
  rcases hdec : env.decodeResult inp with - | s
  · simp [add_rounded_corners, hdec]
  · cases hwr : env.writable outp
    · simp [add_rounded_corners, hdec, hwr]
    · simp [add_rounded_corners, hdec, hwr]

theorem c9_witness :
    ((add_rounded_corners envOk "logo.png" "favicon.png" 50).2 ≠ none ↔
      envOk.decodeResult "logo.png" = none ∨ envOk.writable "favicon.png" = false) ∧
    (envOk.decodeResult "logo.png" = none →
      (add_rounded_corners envOk "logo.png" "favicon.png" 50).1 = []) ∧
    ((add_rounded_corners envOk "logo.png" "favicon.png" 50).2 = none →
      (add_rounded_corners envOk "logo.png" "favicon.png" 50).1.length = 1) :=
  c9_error_propagation envOk "logo.png" "favicon.png" 50

/-- C10: after loading, the image is unconditionally RGBA, so the mode test
takes the multiply branch (the transform's alpha is the multiply branch's
alpha), and for inputs without an original alpha channel the two branches
compute the same alpha anyway. -/
theorem c10_else_branch_unreachable (s : SrcImage) (r x y : Nat) :
    (convertRGBA s).mode = "RGBA" ∧
    (applyRoundedCorners s r).alpha x y = multiplyBranchAlpha (convertRGBA s) r x y ∧
    (s.alphaCh = none →
      multiplyBranchAlpha (convertRGBA s) r x y
        = elseBranchAlpha (convertRGBA s) r x y) := by
  refine ⟨rfl, rfl, fun h => ?_⟩
  show muldiv255 ((convertRGBA s).alpha x y) (roundedMask s.width s.height r x y)
      = roundedMask s.width s.height r x y
  rw [convertRGBA_alpha_none s h]
  exact muldiv255_255_left _ (roundedMask_eq_zero_or_255 s.width s.height r x y)

theorem c10_witness :
    (convertRGBA testNoAlpha).mode = "RGBA" ∧
    (applyRoundedCorners testNoAlpha 2).alpha 1 1
      = multiplyBranchAlpha (convertRGBA testNoAlpha) 2 1 1 ∧
    multiplyBranchAlpha (convertRGBA testNoAlpha) 2 1 1
      = elseBranchAlpha (convertRGBA testNoAlpha) 2 1 1 :=
  ⟨(c10_else_branch_unreachable testNoAlpha 2 1 1).1,
    (c10_else_branch_unreachable testNoAlpha 2 1 1).2.1,
    (c10_else_branch_unreachable testNoAlpha 2 1 1).2.2 rfl⟩
